import Mathlib

/-!
Verification development for the in-process coordination runtime of the
twilio-conversational-agent repository: the in-memory event bus
(`InMemoryEventBus`), the dependency-injection service registry
(`DependencyInjectionContainer`), the plugin/agent lifecycle (`BaseAgent`),
and the subconscious background-agent scheduler (`SubconsciousAgent`,
`SummarizationAgent.mergeTopics`).

The TypeScript sources are embedded shallowly: JavaScript values that matter
to control flow (truthiness checks, `typeof`, optional `destroy` hooks) are
modelled by the inductive `JSVal`; stateful classes become explicit state
records threaded through pure functions; `async` methods that can reject
return `Except`; recursion through user factories is bounded by an explicit
fuel parameter (the `outOfFuel` error is a model artifact standing in for
stack overflow and is never reached at the fuel bounds used here).
Wall-clock-only data (`createdAt`, `duration`, processing-time samples) is
omitted; every other field and branch follows the source line by line.
-/

set_option maxRecDepth 4000

namespace CoordKernel

/-- Model of the JavaScript values that flow through the runtime: `undefined`,
`null`, booleans, numbers, strings, and opaque object references.  An object
carries an identity `oid`, whether it exposes a `destroy` method, and whether
that method throws when invoked (used by the registry teardown model). -/
inductive JSVal where
  | vundefined
  | vnull
  | vbool (b : Bool)
  | vnum (n : Int)
  | vstr (s : String)
  | vobj (oid : Nat) (hasDestroy : Bool) (destroyThrows : Bool)
deriving DecidableEq, Repr

/-- JavaScript truthiness: `undefined`, `null`, `false`, `0`, and `""` are
falsy; every object is truthy. -/
def truthy : JSVal → Bool
  | .vundefined => false
  | .vnull => false
  | .vbool b => b
  | .vnum n => n != 0
  | .vstr s => s ≠ ""
  | .vobj _ _ _ => true

/-- JavaScript `typeof`.  Note `typeof null` is `"object"`. -/
def jsTypeof : JSVal → String
  | .vundefined => "undefined"
  | .vnull => "object"
  | .vbool _ => "boolean"
  | .vnum _ => "number"
  | .vstr _ => "string"
  | .vobj _ _ _ => "object"

/-- Modelled from the spec: the spec's data model calls an event's `data`
field a "map".  Only genuine objects count; `null` is not a map even though
`typeof null = "object"`.  Used to compare the spec's validation contract
with the code's `typeof` check. -/
def isMap : JSVal → Bool
  | .vobj _ _ _ => true
  | _ => false

/-- Truthiness of an optional field (`undefined` when absent). -/
def optTruthy : Option JSVal → Bool
  | some v => truthy v
  | none => false

instance {ε α : Type} [DecidableEq ε] [DecidableEq α] : DecidableEq (Except ε α) := fun a b =>
  match a, b with
  | .error x, .error y =>
    if h : x = y then .isTrue (by rw [h]) else .isFalse (by simp [h])
  | .error _, .ok _ => .isFalse (by simp)
  | .ok _, .error _ => .isFalse (by simp)
  | .ok x, .ok y =>
    if h : x = y then .isTrue (by rw [h]) else .isFalse (by simp [h])

section AssocHelpers

variable {κ α : Type} [DecidableEq κ]

/-- First-match lookup in an association list (JS `Map.get`). -/
def alookup (k : κ) : List (κ × α) → Option α
  | [] => none
  | (k2, v) :: rest => if k2 = k then some v else alookup k rest

/-- JS `Map.set`: replace the first entry with the key in place, else append. -/
def aset (k : κ) (v : α) : List (κ × α) → List (κ × α)
  | [] => [(k, v)]
  | (k2, w) :: rest => if k2 = k then (k, v) :: rest else (k2, w) :: aset k v rest

/-- Update the first entry with the key by a function; no-op when absent. -/
def amodify (k : κ) (f : α → α) : List (κ × α) → List (κ × α)
  | [] => []
  | (k2, w) :: rest => if k2 = k then (k2, f w) :: rest else (k2, w) :: amodify k f rest

/-- `Array.prototype.splice` at `indexOf`: remove the first occurrence. -/
def spliceFirst (a : κ) : List κ → List κ
  | [] => []
  | x :: xs => if x = a then xs else x :: spliceFirst a xs

end AssocHelpers

/-- Deduplication as performed by a JavaScript `Set` (and by the
`!list.includes(x)` push pattern): keep the first occurrence of each
element, preserving order.  `seen` accumulates elements already emitted. -/
def setDedupAux {α : Type} [DecidableEq α] (seen : List α) : List α → List α
  | [] => []
  | x :: xs => if x ∈ seen then setDedupAux seen xs else x :: setDedupAux (x :: seen) xs

/-- `[...new Set(list)]`: first-occurrence deduplication. -/
def setDedup {α : Type} [DecidableEq α] (l : List α) : List α := setDedupAux [] l

/-! ## EventBus (`InMemoryEventBus`)

Handlers are opaque to the bus; we model a subscriber by an identity `hid`
(so invocation can be observed on a call log) and by whether invoking it
throws/rejects.  The bus state carries the exact-type listener table (the
Node `EventEmitter` listener lists, in subscription order), the pattern
subscription map, the bounded history, and the statistics counters that the
claims refer to (`totalEvents`, `errorCount`); the wall-clock processing-time
samples are omitted. -/

/-- An event handler as seen by the bus: an identity plus its behavior. -/
structure Handler where
  hid : Nat
  throws : Bool
deriving DecidableEq, Repr

/-- `EventBusConfig` with JS-truthiness defaults applied at the use sites
(`enableEventHistory`/`enablePatternMatching` absent means falsy). -/
structure BusConfig where
  enablePatternMatching : Bool := false
  enableEventHistory : Bool := false
  historyLimit : Option Nat := none
deriving DecidableEq, Repr

/-- `this.config.historyLimit || 1000` (note `0` is falsy in JS). -/
def effHistoryLimit (cfg : BusConfig) : Nat :=
  match cfg.historyLimit with
  | some n => if n = 0 then 1000 else n
  | none => 1000

/-- `AgentEvent`: fields are raw JS values so that absent (`undefined`) and
present-but-falsy fields (such as an empty-string id) are distinguishable,
exactly as the `validateEvent` truthiness checks see them.  `metadata` is
omitted (never read by the bus). -/
structure AgentEvent where
  id : JSVal
  type : JSVal
  sessionId : JSVal
  agentId : JSVal
  timestamp : JSVal
  data : JSVal
deriving DecidableEq, Repr

/-- `InMemoryEventBus` state. -/
structure BusState where
  config : BusConfig
  listeners : List (JSVal × List Handler)
  patternSubs : List (String × List Handler)
  history : List AgentEvent
  totalEvents : Nat
  errorCount : Nat
  callLog : List Nat
deriving DecidableEq, Repr

/-- A fresh bus with the given configuration. -/
def emptyBus (cfg : BusConfig) : BusState :=
  { config := cfg, listeners := [], patternSubs := [], history := [],
    totalEvents := 0, errorCount := 0, callLog := [] }

/-- `InMemoryEventBus.validateEvent`: truthiness check of the four required
fields, then `typeof event.data !== 'object'`. -/
def validateEvent (e : AgentEvent) : Except String Unit :=
  if ¬(truthy e.id && truthy e.type && truthy e.sessionId && truthy e.timestamp) then
    .error "Invalid event structure: missing required fields"
  else if jsTypeof e.data ≠ "object" then
    .error "Invalid event structure: data must be an object"
  else
    .ok ()

/-- `InMemoryEventBus.safeCallHandler`: invoke the handler (recorded on the
call log), catch anything it throws, count it in `errorCount`, never rethrow. -/
def safeCallHandler (st : BusState) (h : Handler) : BusState :=
  let st1 := { st with callLog := st.callLog ++ [h.hid] }
  if h.throws then { st1 with errorCount := st1.errorCount + 1 } else st1

/-- `this.listeners(event.type)`: the exact-type listener list, in
subscription order. -/
def listenersFor (st : BusState) (t : JSVal) : List Handler :=
  (alookup t st.listeners).getD []

/-- `InMemoryEventBus.handleDirectSubscriptions`: call every exact-type
listener through `safeCallHandler` and wait for all of them. -/
def handleDirectSubscriptions (e : AgentEvent) (st : BusState) : BusState :=
  (listenersFor st e.type).foldl safeCallHandler st

/-- `InMemoryEventBus.matchesPattern`: the pattern is compiled to a regex
with `.` escaped and `*` replaced by `.*`, anchored on both sides.  We run
the equivalent glob matcher directly: `*` matches any (possibly empty)
substring, every other character is literal. -/
def globMatchF : Nat → List Char → List Char → Bool
  | 0, _, _ => false
  | _ + 1, [], [] => true
  | _ + 1, [], _ :: _ => false
  | n + 1, p :: ps, [] => (p = '*') && globMatchF n ps []
  | n + 1, p :: ps, c :: cs =>
    if p = '*' then globMatchF n ps (c :: cs) || globMatchF n (p :: ps) cs
    else (p = c) && globMatchF n ps cs

/-- Anchored glob match; each step consumes at least one character of the
pattern or the subject, so the fuel below is always sufficient. -/
def globMatch (p s : List Char) : Bool :=
  globMatchF (p.length + s.length + 1) p s

/-- Pattern match against the event's `type` value (only strings can match). -/
def matchesPattern (t : JSVal) (pat : String) : Bool :=
  match t with
  | .vstr s => globMatch pat.data s.data
  | _ => false

/-- `InMemoryEventBus.handlePatternSubscriptions`: for each registered
pattern whose compiled matcher accepts `event.type`, call all its handlers
through `safeCallHandler`. -/
def handlePatternSubscriptions (e : AgentEvent) (st : BusState) : BusState :=
  st.patternSubs.foldl
    (fun acc sub =>
      if matchesPattern e.type sub.1 then sub.2.foldl safeCallHandler acc else acc)
    st

/-- `InMemoryEventBus.addToHistory`: push, then trim to the last
`historyLimit` entries when over the limit. -/
def addToHistory (e : AgentEvent) (st : BusState) : BusState :=
  let hist := st.history ++ [e]
  let limit := effHistoryLimit st.config
  if hist.length > limit then
    { st with history := hist.drop (hist.length - limit) }
  else
    { st with history := hist }

/-- `InMemoryEventBus.publish`: validate, append to history when enabled,
run direct then pattern handlers (each isolated by `safeCallHandler`),
update statistics, resolve.  A validation failure is rethrown to the caller
after bumping `errorCount` (the `catch` block); handler failures never
reach that `catch`. -/
def publish (e : AgentEvent) (st : BusState) : BusState × Except String Unit :=
  match validateEvent e with
  | .error msg => ({ st with errorCount := st.errorCount + 1 }, .error msg)
  | .ok _ =>
    let st1 := if st.config.enableEventHistory then addToHistory e st else st
    let st2 := handleDirectSubscriptions e st1
    let st3 := if st2.config.enablePatternMatching then handlePatternSubscriptions e st2 else st2
    ({ st3 with totalEvents := st3.totalEvents + 1 }, .ok ())

/-- `InMemoryEventBus.subscribe` (`EventEmitter.on` appends the handler to
the type's listener list). -/
def subscribe (t : JSVal) (h : Handler) (st : BusState) : BusState :=
  { st with listeners := aset t ((listenersFor st t) ++ [h]) st.listeners }

/-- `InMemoryEventBus.subscribeToPattern`: add the handler to the pattern's
set (insertion order preserved; `Set.add` is a no-op on duplicates, which we
mirror for handler identity). -/
def subscribeToPattern (pat : String) (h : Handler) (st : BusState) : BusState :=
  let existing := (alookup pat st.patternSubs).getD []
  let updated := if h ∈ existing then existing else existing ++ [h]
  { st with patternSubs := aset pat updated st.patternSubs }

/-! ## ServiceRegistry (`DependencyInjectionContainer`)

A factory is a JS function; the registry interacts with it through two
channels: calling it (it may call back into `registry.get`, return a value,
or throw) and reading its source text with `toString()` (used by
`extractDependencies`).  The call behavior is modelled by the small
`FactoryBody` language, the source text by an uninterpreted string. -/

/-- What a service factory does when invoked with the registry. -/
inductive FactoryBody where
  | ret (v : JSVal)
  | fail (msg : String)
  | getThen (dep : String) (rest : FactoryBody)
deriving DecidableEq, Repr

/-- A `ServiceFactory`: call behavior plus `toString()` text. -/
structure Factory where
  body : FactoryBody
  sourceText : String
deriving DecidableEq, Repr

/-- Service lifecycle states. -/
inductive Lifecycle where
  | registered
  | initializing
  | initialized
  | error
deriving DecidableEq, Repr

/-- `ServiceEntry` (`createdAt` omitted: wall clock only). -/
structure ServiceEntry where
  factory : Factory
  inst : Option JSVal
  lifecycle : Lifecycle
  dependencies : List String
  errorMsg : Option String
deriving DecidableEq, Repr

/-- `ServiceRegistryConfig` after the constructor merges the defaults
(every flag defaults to `true`; `enableLifecycleLogging` only gates logging
and is omitted). -/
structure RegConfig where
  enableCircularDependencyDetection : Bool := true
  enableLazyLoading : Bool := true
deriving DecidableEq, Repr

/-- `DependencyInjectionContainer` state.  `services` is the `Map` in
insertion order; `factoryLog` instruments the single point where
`entry.factory(this)` is invoked, so that "the factory ran" is observable. -/
structure RegState where
  config : RegConfig
  services : List (String × ServiceEntry)
  initializationStack : List String
  factoryLog : List String
deriving DecidableEq, Repr

/-- A fresh container with the default configuration. -/
def emptyReg : RegState :=
  { config := {}, services := [], initializationStack := [], factoryLog := [] }

/-- The errors the container throws, one constructor per `throw` site. -/
inductive RegError where
  | notRegistered (name : String)
  | notInitializedLazyDisabled (name : String)
  | circularDependency (path : List String)
  | userError (msg : String)
  | outOfFuel
deriving DecidableEq, Repr

/-- `Array.prototype.join(' -> ')`. -/
def joinArrow : List String → String
  | [] => ""
  | [x] => x
  | x :: rest => x ++ " -> " ++ joinArrow rest

/-- The `Error.message` string built at each throw site. -/
def RegError.message : RegError → String
  | .notRegistered n => "Service '" ++ n ++ "' is not registered"
  | .notInitializedLazyDisabled n =>
      "Service '" ++ n ++ "' is not initialized and lazy loading is disabled"
  | .circularDependency path =>
      "Circular dependency detected: " ++ joinArrow path
  | .userError msg => msg
  | .outOfFuel => "out of fuel"

/-- The three JS quote characters recognised by the dependency-extraction
regex: `'`, `"`, and the backquote. -/
def isQuoteCh (c : Char) : Bool :=
  c = '\'' || c = '"' || c = Char.ofNat 96

/-- Literal-text matcher: if `cs` starts with the literal `lit`, return the
remainder, else `none`. -/
def dropLit : List Char → List Char → Option (List Char)
  | [], cs => some cs
  | _ :: _, [] => none
  | l :: ls, c :: cs => if c = l then dropLit ls cs else none

/-- One attempt of the regex `registry\.get\(['"\x60]([^'"\x60]+)['"\x60]\)`
at the head of `cs`: on success return the captured service name and the
remainder after the whole match. -/
def matchGetAt (cs : List Char) : Option (String × List Char) :=
  match dropLit "registry.get(".data cs with
  | none => none
  | some rest =>
    match rest with
    | [] => none
    | q :: rest2 =>
      if isQuoteCh q then
        let cap := rest2.takeWhile (fun c => !(isQuoteCh c))
        let rest3 := rest2.dropWhile (fun c => !(isQuoteCh c))
        if cap.isEmpty then none
        else
          match rest3 with
          | q2 :: c2 :: rest4 =>
            if isQuoteCh q2 && c2 = ')' then some (String.mk cap, rest4) else none
          | _ => none
      else none

/-- Global regex scan (leftmost, non-overlapping): collect every match's
captured name in order.  Fuel bounds the scan; each step consumes at least
one character, so `length + 1` fuel is always enough. -/
def scanGets : Nat → List Char → List String
  | 0, _ => []
  | _ + 1, [] => []
  | n + 1, c :: cs =>
    match matchGetAt (c :: cs) with
    | some (name, rest) => name :: scanGets n rest
    | none => scanGets n cs

/-- `DependencyInjectionContainer.extractDependencies`: scan the factory's
source text for `registry.get('...')` patterns and collect the service
names, skipping duplicates. -/
def extractDependencies (src : String) : List String :=
  setDedup (scanGets (src.length + 1) src.data)

/-- `DependencyInjectionContainer.register`: store a factory entry whose
dependencies are inferred from the factory source text.  (Re-registration
only logs a warning; the entry is overwritten.) -/
def register (name : String) (f : Factory) (st : RegState) : RegState :=
  let entry : ServiceEntry :=
    { factory := f, inst := none, lifecycle := .registered,
      dependencies := extractDependencies f.sourceText, errorMsg := none }
  { st with services := aset name entry st.services }

/-- `DependencyInjectionContainer.registerInstance`: store a pre-built
instance with lifecycle `initialized` and an empty dependency list. -/
def registerInstance (name : String) (v : JSVal) (st : RegState) : RegState :=
  let entry : ServiceEntry :=
    { factory := { body := .ret v, sourceText := "() => instance" },
      inst := some v, lifecycle := .initialized,
      dependencies := [], errorMsg := none }
  { st with services := aset name entry st.services }

/-- Update the stored entry for `name` (mutation of the `Map`'s entry
object). -/
def updateEntry (name : String) (f : ServiceEntry → ServiceEntry) (st : RegState) : RegState :=
  { st with services := amodify name f st.services }

/-- Run a factory body, where `g` is the re-entrant `registry.get` the
factory closes over: each `registry.get` call re-enters the container; a
thrown error propagates out of the factory. -/
def runBodyWith (g : String → RegState → RegState × Except RegError JSVal) :
    FactoryBody → RegState → RegState × Except RegError JSVal
  | .ret v, st => (st, .ok v)
  | .fail msg, st => (st, .error (.userError msg))
  | .getThen dep rest, st =>
    match g dep st with
    | (st1, .error e) => (st1, .error e)
    | (st1, .ok _) => runBodyWith g rest st1

/-- `DependencyInjectionContainer.createInstance` (parameterized by the
re-entrant `get`): cycle check against the initializing stack (before the
`try`, so the `finally` does not run for this throw), push the name, invoke
the factory, memoize on success, record the error and lifecycle `error` on
failure, and in both cases splice the name back out of the stack. -/
def createInstanceWith (g : String → RegState → RegState × Except RegError JSVal)
    (name : String) (entry : ServiceEntry) (st : RegState) :
    RegState × Except RegError JSVal :=
  if st.config.enableCircularDependencyDetection ∧ name ∈ st.initializationStack then
    (st, .error (.circularDependency (st.initializationStack ++ [name])))
  else
    let st1 := updateEntry name (fun e => { e with lifecycle := .initializing }) st
    let st2 := { st1 with
      initializationStack := st1.initializationStack ++ [name],
      factoryLog := st1.factoryLog ++ [name] }
    match runBodyWith g entry.factory.body st2 with
    | (st3, .ok v) =>
      let st4 := updateEntry name
        (fun e => { e with inst := some v, lifecycle := .initialized }) st3
      ({ st4 with initializationStack := spliceFirst name st4.initializationStack }, .ok v)
    | (st3, .error err) =>
      let st4 := updateEntry name
        (fun e => { e with lifecycle := .error, errorMsg := some err.message }) st3
      ({ st4 with initializationStack := spliceFirst name st4.initializationStack },
        .error err)

/-- `DependencyInjectionContainer.get`: return the memoized instance when it
is truthy, otherwise create it (when lazy loading is enabled or the entry is
still `registered`).  Fuel decreases once per nested `get`, bounding the
factory-call recursion; `outOfFuel` models stack exhaustion and is
unreachable at the fuel used by `getService`. -/
def getFuel : Nat → String → RegState → RegState × Except RegError JSVal
  | 0, _, st => (st, .error .outOfFuel)
  | n + 1, name, st =>
    match alookup name st.services with
    | none => (st, .error (.notRegistered name))
    | some entry =>
      if optTruthy entry.inst then (st, .ok (entry.inst.getD .vundefined))
      else if st.config.enableLazyLoading ∨ entry.lifecycle = .registered then
        createInstanceWith (getFuel n) name entry st
      else
        (st, .error (.notInitializedLazyDisabled name))

/-- Public `get`: with circular-dependency detection on, nested creation
pushes a fresh name per level, so `services.length + 2` fuel can never run
out. -/
def getService (name : String) (st : RegState) : RegState × Except RegError JSVal :=
  getFuel (st.services.length + 2) name st

/-- Lexicographic comparison on code points, as `Array.prototype.sort()`
compares strings. -/
def strLtL : List Char → List Char → Bool
  | [], [] => false
  | [], _ :: _ => true
  | _ :: _, [] => false
  | a :: as, b :: bs =>
    if a.toNat < b.toNat then true
    else if b.toNat < a.toNat then false
    else strLtL as bs

/-- Lexicographic string order used by `Array.prototype.sort()`. -/
def strLe (a b : String) : Bool := !(strLtL b.data a.data)

/-- Insertion step of the sort. -/
def strInsert (x : String) : List String → List String
  | [] => [x]
  | y :: ys => if strLe x y then x :: y :: ys else y :: strInsert x ys

/-- `Array.from(map.keys()).sort()`. -/
def strSort (l : List String) : List String := l.foldr strInsert []

/-- `DependencyInjectionContainer.list`: registered names, sorted. -/
def listNames (st : RegState) : List String := strSort (st.services.map (·.1))

/-- DFS bookkeeping for `topologicalSort`. -/
structure TSState where
  visiting : List String
  visited : List String
  result : List String
deriving DecidableEq, Repr

/-- Visit a dependency list in order with the visitor `f`, propagating the
first error. -/
def visitListWith (f : String → TSState → Except String TSState) :
    List String → TSState → Except String TSState
  | [], ts => .ok ts
  | d :: ds, ts =>
    match f d ts with
    | .error e => .error e
    | .ok ts1 => visitListWith f ds ts1

/-- The dependencies the DFS recurses into for `name`: the entry's declared
dependencies that are themselves registered names
(`serviceNames.includes(dep)`). -/
def depsOf (reg : RegState) (names : List String) (name : String) : List String :=
  match alookup name reg.services with
  | some entry => entry.dependencies.filter (fun d => decide (d ∈ names))
  | none => []

/-- The `visit` closure of `DependencyInjectionContainer.topologicalSort`:
a back-edge to a `visiting` node throws, a `visited` node is skipped,
otherwise visit the declared dependencies that are themselves registered
names, then emit the node.  Fuel decreases once per recursion level; the
DFS depth is bounded by the number of names, so the fuel used by
`topologicalSort` is always sufficient. -/
def visitT : Nat → RegState → List String → String → TSState → Except String TSState
  | 0, _, _, _, _ => .error "out of fuel"
  | n + 1, reg, names, name, ts =>
    if name ∈ ts.visiting then
      .error ("Circular dependency detected involving: " ++ name)
    else if name ∈ ts.visited then
      .ok ts
    else
      let ts1 : TSState := { ts with visiting := ts.visiting ++ [name] }
      match visitListWith (visitT n reg names) (depsOf reg names name) ts1 with
      | .error e => .error e
      | .ok ts2 =>
        .ok { visiting := spliceFirst name ts2.visiting,
              visited := ts2.visited ++ [name],
              result := ts2.result ++ [name] }

/-- Outer loop of `topologicalSort`: visit every service name not yet
visited. -/
def topoOuter (n : Nat) (reg : RegState) (names : List String) :
    List String → TSState → Except String TSState
  | [], ts => .ok ts
  | x :: xs, ts =>
    if x ∈ ts.visited then topoOuter n reg names xs ts
    else
      match visitT n reg names x ts with
      | .error e => .error e
      | .ok ts1 => topoOuter n reg names xs ts1

/-- `DependencyInjectionContainer.topologicalSort` over the sorted service
names.  The DFS depth is bounded by the number of names, so the fuel below
is always sufficient. -/
def topologicalSort (reg : RegState) (names : List String) : Except String (List String) :=
  (topoOuter (names.length + 2) reg names names ⟨[], [], []⟩).map (·.result)

/-- One per-service row of the `initializeAll` report (`duration` omitted:
wall clock only). -/
structure InitResult where
  name : String
  success : Bool
  errMsg : Option String
deriving DecidableEq, Repr

/-- The `for` loop of `initializeAll`: `get` each name in sorted order,
catching per-service failures. -/
def initLoop : List String → RegState → RegState × List InitResult
  | [], st => (st, [])
  | name :: rest, st =>
    match getService name st with
    | (st1, .ok _) =>
      let (st2, results) := initLoop rest st1
      (st2, { name := name, success := true, errMsg := none } :: results)
    | (st1, .error e) =>
      let (st2, results) := initLoop rest st1
      (st2, { name := name, success := false, errMsg := some e.message } :: results)

/-- `DependencyInjectionContainer.initializeAll`: topologically sort all
registered names, then instantiate each in order.  The sort is invoked
outside the per-service `try`, so an error it throws rejects the whole
call. -/
def initializeAll (st : RegState) : RegState × Except String (List InitResult) :=
  let names := listNames st
  match topologicalSort st names with
  | .error e => (st, .error e)
  | .ok sorted =>
    let (st1, results) := initLoop sorted st
    (st1, .ok results)

/-- `typeof entry.instance.destroy === 'function'`. -/
def hasDestroyHook : JSVal → Bool
  | .vobj _ hasD _ => hasD
  | _ => false

/-- Whether the instance's `destroy()` hook rejects when awaited. -/
def destroyHookThrows : JSVal → Bool
  | .vobj _ _ t => t
  | _ => false

/-- `DependencyInjectionContainer.destroy`'s service names:
`this.list().reverse()`, i.e. reverse-sorted name order. -/
def destroyOrder (st : RegState) : List String := (listNames st).reverse

/-- The teardown loop: for each name in `destroyOrder`, when the entry has a
truthy instance exposing a `destroy` function, await it; a rejection is
caught and logged and the loop continues.  Returns the (name, hook
succeeded) log in invocation order. -/
def destroyLoop (st : RegState) : List String → List (String × Bool)
  | [] => []
  | name :: rest =>
    match alookup name st.services with
    | some entry =>
      match entry.inst with
      | some v =>
        if truthy v && hasDestroyHook v then
          (name, !destroyHookThrows v) :: destroyLoop st rest
        else destroyLoop st rest
      | none => destroyLoop st rest
    | none => destroyLoop st rest

/-- `DependencyInjectionContainer.destroy`: run the teardown loop, then
clear the registry and the initializing stack. -/
def destroyReg (st : RegState) : RegState × List (String × Bool) :=
  let log := destroyLoop st (destroyOrder st)
  ({ st with services := [], initializationStack := [] }, log)

/-! ## Agent lifecycle (`BaseAgent`) and scheduler (`SubconsciousAgent`)

Timers need a timing model: `setInterval(cb, p)` armed at time `a` and
cleared at time `c` fires its callback at `a + k*p` for `k ≥ 1` strictly
before `c` (a callback due exactly when `clearInterval` runs is not
delivered — the model's convention; the claims below only use clear times
that are not tick multiples, where the conventions agree).  The world
records armed intervals and, for each cleared one, its clear time, from
which the fired ticks are computed. -/

/-- `AgentStatus`. -/
inductive AgentStatus where
  | initializing
  | running
  | paused
  | stopping
  | stopped
  | error
deriving DecidableEq, Repr

/-- `SubconsciousAgentConfig` (analysis-specific fields omitted;
`autoStart` keeps its optionality because the code tests
`autoStart !== false`). -/
structure SubConfig where
  frequency : Nat
  autoStart : Option Bool := none
deriving DecidableEq, Repr

/-- A live `setInterval` registration. -/
structure Interval where
  iid : Nat
  period : Nat
  armedAt : Nat
deriving DecidableEq, Repr

/-- The timer world: live intervals plus the record of cleared ones. -/
structure TimerWorld where
  nextId : Nat
  active : List Interval
  cleared : List (Interval × Nat)
deriving DecidableEq, Repr

/-- A world with no timers. -/
def freshWorld : TimerWorld := { nextId := 0, active := [], cleared := [] }

/-- `setInterval` at time `t`: allocate an id and arm the interval. -/
def setIntervalW (period t : Nat) (w : TimerWorld) : Nat × TimerWorld :=
  let i : Interval := { iid := w.nextId, period := period, armedAt := t }
  (w.nextId, { w with nextId := w.nextId + 1, active := w.active ++ [i] })

/-- `clearInterval` at time `t`: deactivate the interval and record its
clear time. -/
def clearIntervalW (id t : Nat) (w : TimerWorld) : TimerWorld :=
  { w with
    active := w.active.filter (fun i => i.iid ≠ id),
    cleared := w.cleared ++ (w.active.filter (fun i => i.iid = id)).map (fun i => (i, t)) }

/-- How many ticks an interval armed at `armT` with period `period` fires
strictly before `clearT`. -/
def numTicks (period armT clearT : Nat) : Nat :=
  if clearT ≤ armT then 0 else (clearT - armT - 1) / period

/-- The tick times of a cleared interval: `armT + k*period` for
`1 ≤ k ≤ numTicks`. -/
def tickTimes (period armT clearT : Nat) : List Nat :=
  (List.range (numTicks period armT clearT)).map (fun k => armT + (k + 1) * period)

/-- Ticks fired by one entry of `TimerWorld.cleared`. -/
def intervalTicks (p : Interval × Nat) : List Nat :=
  tickTimes p.1.period p.1.armedAt p.2

/-- Observable `SubconsciousAgent` state: the `BaseAgent` fields it
manipulates (`context`, `status`, the event subscriptions made by
`setupEventSubscriptions`) plus `processingTimer`. -/
structure SubAgent where
  contextSet : Bool := false
  status : AgentStatus := .initializing
  subsSetup : Bool := false
  processingTimer : Option Nat := none
deriving DecidableEq, Repr

/-- A freshly constructed agent. -/
def freshAgent : SubAgent := {}

/-- `BaseAgent.ensureInitialized`: throws unless a context is set and the
status has left `initializing`. -/
def ensureInitialized (a : SubAgent) : Except String Unit :=
  if ¬a.contextSet ∨ a.status = .initializing then .error "Agent is not initialized"
  else .ok ()

/-- `BaseAgent.initialize`: store the context, set status `initializing`,
wire the event subscriptions, then set status `running`. -/
def baseInitialize (a : SubAgent) : SubAgent :=
  let a1 := { a with contextSet := true, status := AgentStatus.initializing }
  let a2 := { a1 with subsSetup := true }
  { a2 with status := .running }

/-- `SubconsciousAgent.startProcessingTimer` at time `t`: clear any existing
timer, then arm a repeating timer at `config.frequency`. -/
def startProcessingTimer (cfg : SubConfig) (t : Nat) (a : SubAgent) (w : TimerWorld) :
    SubAgent × TimerWorld :=
  let w1 := match a.processingTimer with
    | some id => clearIntervalW id t w
    | none => w
  let idw := setIntervalW cfg.frequency t w1
  ({ a with processingTimer := some idw.1 }, idw.2)

/-- `SubconsciousAgent.stopProcessingTimer` at time `t`. -/
def stopProcessingTimer (t : Nat) (a : SubAgent) (w : TimerWorld) :
    SubAgent × TimerWorld :=
  match a.processingTimer with
  | some id => ({ a with processingTimer := none }, clearIntervalW id t w)
  | none => (a, w)

/-- `SubconsciousAgent.start`: `super.start()` (ensure initialized, set
status `running`), then arm the processing timer. -/
def subStart (cfg : SubConfig) (t : Nat) (a : SubAgent) (w : TimerWorld) :
    Except String (SubAgent × TimerWorld) :=
  match ensureInitialized a with
  | .error e => .error e
  | .ok _ =>
    let a1 := { a with status := AgentStatus.running }
    .ok (startProcessingTimer cfg t a1 w)

/-- `SubconsciousAgent.stop`: disarm the timer first, then `super.stop()`
(status `stopping`, clean up subscriptions, status `stopped`). -/
def subStop (t : Nat) (a : SubAgent) (w : TimerWorld) :
    Except String (SubAgent × TimerWorld) :=
  let aw := stopProcessingTimer t a w
  match ensureInitialized aw.1 with
  | .error e => .error e
  | .ok _ =>
    let a1 := { aw.1 with status := AgentStatus.stopping }
    let a2 := { a1 with subsSetup := false }
    .ok ({ a2 with status := .stopped }, aw.2)

/-- `SubconsciousAgent.initialize` at time `t`: `super.initialize`, then
`start()` unless the config explicitly sets `autoStart` to `false`
(`this.config.autoStart !== false`). -/
def subInitialize (cfg : SubConfig) (t : Nat) (a : SubAgent) (w : TimerWorld) :
    Except String (SubAgent × TimerWorld) :=
  let a1 := baseInitialize a
  if cfg.autoStart ≠ some false then subStart cfg t a1 w
  else .ok (a1, w)

/-! ## `SummarizationAgent.mergeTopics` -/

/-- `SummarizationAgent.mergeTopics`: concatenate and strip duplicates with
a JS `Set` (first occurrence wins). -/
def mergeTopics (existingTopics newTopics : List String) : List String :=
  setDedup (existingTopics ++ newTopics)

/-! ## Derived notions used in theorem statements -/

/-- The handlers the pattern phase of `publish` runs, in iteration order:
for each subscription whose pattern matches the event type, all its
handlers. -/
def patternHandlers (e : AgentEvent) : List (String × List Handler) → List Handler
  | [] => []
  | s :: rest => (if matchesPattern e.type s.1 then s.2 else []) ++ patternHandlers e rest

/-- Service `s` is memoized with the truthy instance `v`. -/
def memoizedTruthy (st : RegState) (s : String) (v : JSVal) : Prop :=
  ∃ e, alookup s st.services = some e ∧ e.inst = some v ∧ truthy v = true

/-- A sequence of `get` calls, threading the registry state. -/
def runGets (calls : List String) (st : RegState) : RegState :=
  calls.foldl (fun acc n => (getService n acc).1) st

/-! ## Concrete fixtures used by the claim theorems -/

/-- A factory whose source text never mentions `registry.get`. -/
def fixFactoryPlain : Factory :=
  { body := .ret (.vobj 1 false false), sourceText := "() => makeService()" }

/-- A factory with the same call behavior as `fixFactoryPlain` whose source
text contains a `registry.get('db')` call site. -/
def fixFactoryGets : Factory :=
  { body := .ret (.vobj 1 false false), sourceText := "(registry) => registry.get('db')" }

/-- A fully well-formed event. -/
def evBase : AgentEvent :=
  { id := .vstr "evt-1", type := .vstr "conversation.turn", sessionId := .vstr "sess-1",
    agentId := .vstr "agent-1", timestamp := .vobj 1 false false, data := .vobj 2 false false }

/-- `evBase` with `data: null` (`typeof null` is `"object"`). -/
def evDataNull : AgentEvent := { evBase with data := .vnull }

/-- `evBase` with a present but empty (falsy) id. -/
def evEmptyId : AgentEvent := { evBase with id := .vstr "" }

/-- A bus with three exact-type subscribers for `"t"`, the second of which
throws. -/
def bus3 : BusState :=
  { emptyBus {} with
    listeners := [(.vstr "t", [{ hid := 1, throws := false },
                               { hid := 2, throws := true },
                               { hid := 3, throws := false }])] }

/-- The event published to `bus3`. -/
def ev3 : AgentEvent := { evBase with type := .vstr "t" }

/-- Two services whose factories fetch each other from the registry. -/
def cycleReg (a b : String) : RegState :=
  register b { body := .getThen a (.ret (.vobj 2 false false)), sourceText := "" }
    (register a { body := .getThen b (.ret (.vobj 1 false false)), sourceText := "" } emptyReg)

/-- A service whose factory returns `null` (falsy). -/
def regNull : RegState :=
  register "s" { body := .ret .vnull, sourceText := "() => null" } emptyReg

/-- Registry fixture for `initializeAll`: `a` and `b` declare each other as
dependencies (a cycle), while `c` is independent and instantiable. -/
def regC3 : RegState :=
  register "c" { body := .ret (.vobj 3 false false), sourceText := "() => makeC()" }
    (register "b" { body := .getThen "a" (.ret (.vobj 2 false false)),
                    sourceText := "(registry) => registry.get('a')" }
      (register "a" { body := .getThen "b" (.ret (.vobj 1 false false)),
                      sourceText := "(registry) => registry.get('b')" } emptyReg))

/-- Registry fixture: service `d`'s factory throws, `e`'s succeeds; no
cycles. -/
def regC3b : RegState :=
  register "e" { body := .ret (.vobj 5 false false), sourceText := "() => makeE()" }
    (register "d" { body := .fail "boom", sourceText := "() => boom()" } emptyReg)

/-- Registry fixture for `destroy`: `a` depends on `z` (declared via its
source text), both instantiated with instances exposing `destroy` hooks;
`zThrows` makes `z`'s hook reject. -/
def regC5 (zThrows : Bool) : RegState :=
  (initializeAll
    (register "z" { body := .ret (.vobj 2 true zThrows), sourceText := "() => makeZ()" }
      (register "a" { body := .getThen "z" (.ret (.vobj 1 true false)),
                      sourceText := "(registry) => registry.get('z')" } emptyReg))).1

/-- The scheduler scenario of the spec: frequency 1000ms, explicit
`start()` at `t = 0`, `stop()` at `t = 2500`. -/
def c9Config : SubConfig := { frequency := 1000, autoStart := some false }

/-- Run the claim's scenario: initialize and start at `t = 0`, stop at
`t = 2500`. -/
def c9Run : Except String (SubAgent × TimerWorld) :=
  match subInitialize c9Config 0 freshAgent freshWorld with
  | .error e => .error e
  | .ok aw =>
    match subStart c9Config 0 aw.1 aw.2 with
    | .error e => .error e
    | .ok aw2 => subStop 2500 aw2.1 aw2.2

/-- The autoStart configuration used by the claim-C10 witness. -/
def c10Config : SubConfig := { frequency := 5000 }

/-! ## Helper lemmas -/

section AssocLemmas

variable {κ α : Type} [DecidableEq κ]

theorem alookup_aset_self (k : κ) (v : α) (l : List (κ × α)) :
    alookup k (aset k v l) = some v := by
  induction l with
  | nil => simp [aset, alookup]
  | cons p rest ih =>
    obtain ⟨k2, w⟩ := p
    by_cases h : k2 = k
    · simp [aset, alookup, h]
    · simp [aset, alookup, h, ih]

theorem alookup_aset_ne (k k2 : κ) (v : α) (l : List (κ × α)) (h : k2 ≠ k) :
    alookup k2 (aset k v l) = alookup k2 l := by
  induction l with
  | nil => simp [aset, alookup, Ne.symm h]
  | cons p rest ih =>
    obtain ⟨k3, w⟩ := p
    by_cases h3 : k3 = k
    · subst h3
      simp [aset, alookup, Ne.symm h]
    · simp [aset, alookup, h3, ih]

theorem alookup_amodify_ne (k k2 : κ) (f : α → α) (l : List (κ × α)) (h : k2 ≠ k) :
    alookup k2 (amodify k f l) = alookup k2 l := by
  induction l with
  | nil => simp [amodify]
  | cons p rest ih =>
    obtain ⟨k3, w⟩ := p
    by_cases h3 : k3 = k
    · subst h3
      simp [amodify, alookup, Ne.symm h, ih]
    · by_cases h2 : k3 = k2
      · subst h2
        simp [amodify, alookup, h3, h]
      · simp [amodify, alookup, h3, h2, ih]

end AssocLemmas

theorem mem_setDedupAux {α : Type} [DecidableEq α] (y : α) :
    ∀ (l seen : List α), y ∈ setDedupAux seen l ↔ y ∈ l ∧ y ∉ seen := by
  intro l
  induction l with
  | nil => intro seen; simp [setDedupAux]
  | cons x xs ih =>
    intro seen
    by_cases hx : x ∈ seen
    · simp only [setDedupAux, if_pos hx, ih, List.mem_cons]
      constructor
      · rintro ⟨hy, hns⟩; exact ⟨Or.inr hy, hns⟩
      · rintro ⟨hy | hy, hns⟩
        · exact absurd (hy ▸ hx) hns
        · exact ⟨hy, hns⟩
    · simp only [setDedupAux, if_neg hx, List.mem_cons, ih]
      constructor
      · rintro (rfl | ⟨hy, hns⟩)
        · exact ⟨Or.inl rfl, hx⟩
        · refine ⟨Or.inr hy, fun hc => hns (Or.inr hc)⟩
      · rintro ⟨rfl | hy, hns⟩
        · exact Or.inl rfl
        · by_cases hyx : y = x
          · exact Or.inl hyx
          · exact Or.inr ⟨hy, fun hc => by
              rcases hc with h | h
              · exact hyx h
              · exact hns h⟩

theorem mem_setDedup {α : Type} [DecidableEq α] (y : α) (l : List α) :
    y ∈ setDedup l ↔ y ∈ l := by
  simp [setDedup, mem_setDedupAux]

theorem nodup_setDedupAux {α : Type} [DecidableEq α] :
    ∀ (l seen : List α), (setDedupAux seen l).Nodup := by
  intro l
  induction l with
  | nil => intro seen; simp [setDedupAux]
  | cons x xs ih =>
    intro seen
    by_cases hx : x ∈ seen
    · simpa [setDedupAux, hx] using ih seen
    · simp only [setDedupAux, if_neg hx, List.nodup_cons]
      refine ⟨fun hc => ?_, ih (x :: seen)⟩
      exact ((mem_setDedupAux x xs (x :: seen)).mp hc).2 (List.mem_cons_self x seen)

theorem nodup_setDedup {α : Type} [DecidableEq α] (l : List α) :
    (setDedup l).Nodup := nodup_setDedupAux l []

/-! ## Claim C8: topic merging -/

/-- C8: merging an existing topic list with a tick result yields their
deduplicated union; viewed as sets (`toFinset`) the merge is associative
and commutative, so tick order does not change the final topic set; and
merging `["billing","refund"]` with `["refund","account"]` gives
`["billing","refund","account"]` with no duplicates. -/
theorem mergeTopics_dedup_union_assoc_comm :
    (∀ a b : List String, (mergeTopics a b).Nodup)
    ∧ (∀ (a b : List String) (x : String), x ∈ mergeTopics a b ↔ x ∈ a ∨ x ∈ b)
    ∧ (∀ a b : List String, (mergeTopics a b).toFinset = a.toFinset ∪ b.toFinset)
    ∧ (∀ a b c : List String,
        (mergeTopics (mergeTopics a b) c).toFinset
          = (mergeTopics a (mergeTopics b c)).toFinset)
    ∧ (∀ a b : List String, (mergeTopics a b).toFinset = (mergeTopics b a).toFinset)
    ∧ mergeTopics ["billing", "refund"] ["refund", "account"]
        = ["billing", "refund", "account"] := by
  have hmem : ∀ (a b : List String) (x : String), x ∈ mergeTopics a b ↔ x ∈ a ∨ x ∈ b := by
    intro a b x
    simp [mergeTopics, mem_setDedup]
  have hfin : ∀ a b : List String, (mergeTopics a b).toFinset = a.toFinset ∪ b.toFinset := by
    intro a b
    ext x
    simp [hmem]
  refine ⟨fun a b => nodup_setDedup _, hmem, hfin, ?_, ?_, by decide⟩
  · intro a b c
    simp [hfin, Finset.union_assoc]
  · intro a b
    simp [hfin, Finset.union_comm]

/-! ## Claim C2: dependency recording in `register` -/

/-- C2 counterexample: two factories with identical call behavior but
different source texts are recorded with different dependency lists —
`register` takes no dependency parameter and infers the list by scanning
the factory's source text for `registry.get('...')` call sites. -/
theorem register_infers_deps_from_source :
    fixFactoryPlain.body = fixFactoryGets.body
    ∧ (alookup "svc" (register "svc" fixFactoryGets emptyReg).services).map (·.dependencies)
        = some ["db"]
    ∧ (alookup "svc" (register "svc" fixFactoryPlain emptyReg).services).map (·.dependencies)
        = some [] := by
  decide

/-- C2 (amended): `register(name, factory)` accepts no dependency list; the
entry it stores always carries exactly `extractDependencies` of the
factory's source text — the `registry.get('...')` call sites, deduplicated
in first-occurrence order. -/
theorem register_records_extracted_deps (name : String) (f : Factory) (st : RegState) :
    alookup name (register name f st).services =
      some { factory := f, inst := none, lifecycle := .registered,
             dependencies := extractDependencies f.sourceText, errorMsg := none }
    ∧ (extractDependencies f.sourceText).Nodup := by
  exact ⟨alookup_aset_self name _ st.services, nodup_setDedup _⟩

/-! ## Claim C6: event validation -/

/-- Characterization of `validateEvent` success. -/
theorem validateEvent_ok_iff (e : AgentEvent) :
    validateEvent e = .ok () ↔
      (truthy e.id = true ∧ truthy e.type = true ∧ truthy e.sessionId = true
        ∧ truthy e.timestamp = true ∧ jsTypeof e.data = "object") := by
  unfold validateEvent
  by_cases hb : (truthy e.id && truthy e.type && truthy e.sessionId && truthy e.timestamp) = true
  · rw [if_neg (not_not_intro hb)]
    by_cases hd : jsTypeof e.data = "object"
    · rw [if_neg (not_not_intro hd)]
      simp only [Bool.and_eq_true] at hb
      exact ⟨fun _ => ⟨hb.1.1.1, hb.1.1.2, hb.1.2, hb.2, hd⟩, fun _ => rfl⟩
    · rw [if_pos hd]
      constructor
      · intro h; cases h
      · rintro ⟨_, _, _, _, he⟩
        exact absurd he hd
  · rw [if_pos (by simpa using hb)]
    constructor
    · intro h; cases h
    · rintro ⟨ha, hb2, hc, hd2, _⟩
      exact absurd (by simp [ha, hb2, hc, hd2]) hb

/-- C6 counterexample: an event whose `data` is `null` (certainly not a
map) passes validation because `typeof null` is `"object"`, and an event
whose `id` is present but empty (not "missing") fails validation — so
"fails exactly when a required field is missing or `data` is not a map" is
false in both directions. -/
theorem validateEvent_counterexample :
    validateEvent evDataNull = .ok () ∧ isMap evDataNull.data = false
    ∧ validateEvent evEmptyId = .error "Invalid event structure: missing required fields"
    ∧ evEmptyId.id ≠ .vundefined := by
  decide

/-- C6 (amended): `publish` resolves exactly when all four required fields
are truthy (absent or falsy fields both fail) and `typeof data` is
`"object"` (which `null` satisfies despite not being a map); a validation
failure is raised to the caller with the history, listeners, and call log
untouched — only `errorCount` is bumped by the rethrow path. -/
theorem publish_validation_boundary (e : AgentEvent) (st : BusState) :
    ((publish e st).2 = .ok () ↔
      (truthy e.id = true ∧ truthy e.type = true ∧ truthy e.sessionId = true
        ∧ truthy e.timestamp = true ∧ jsTypeof e.data = "object"))
    ∧ (∀ msg, validateEvent e = .error msg →
        publish e st = ({ st with errorCount := st.errorCount + 1 }, .error msg)) := by
  constructor
  · cases hv : validateEvent e with
    | error msg =>
      have hpub : (publish e st).2 = .error msg := by
        simp [publish, hv]
      rw [hpub]
      constructor
      · intro h; cases h
      · intro hr
        exact absurd ((validateEvent_ok_iff e).mpr hr) (by simp [hv])
    | ok u =>
      cases u
      have hpub : (publish e st).2 = .ok () := by
        simp [publish, hv]
      rw [hpub]
      exact ⟨fun _ => (validateEvent_ok_iff e).mp hv, fun _ => rfl⟩
  · intro msg hmsg
    simp [publish, hmsg]

/-- C6 witness: the amended theorem applied to the empty-id event on a
fresh bus. -/
theorem publish_validation_boundary_witness :
    ((publish evEmptyId (emptyBus {})).2 = .ok () ↔
      (truthy evEmptyId.id = true ∧ truthy evEmptyId.type = true
        ∧ truthy evEmptyId.sessionId = true ∧ truthy evEmptyId.timestamp = true
        ∧ jsTypeof evEmptyId.data = "object"))
    ∧ publish evEmptyId (emptyBus {}) =
        ({ emptyBus {} with errorCount := (emptyBus {}).errorCount + 1 },
          .error "Invalid event structure: missing required fields") :=
  ⟨(publish_validation_boundary evEmptyId (emptyBus {})).1,
    (publish_validation_boundary evEmptyId (emptyBus {})).2
      "Invalid event structure: missing required fields" (by decide)⟩

/-! ## Claim C5: teardown order -/

/-- C5: the code comment says "Destroy in reverse dependency order", but
`destroy()` iterates `this.list().reverse()` — reverse alphabetical order.
With `a` depending on `z` (both instantiated, both with destroy hooks), the
dependency `z` is destroyed before its dependent `a`.  The second half
checks the isolation part: a throwing `destroy` hook (on `z`) is caught and
the remaining service is still destroyed. -/
theorem destroy_reverse_name_order :
    (alookup "a" (regC5 false).services).map (·.dependencies) = some ["z"]
    ∧ (alookup "a" (regC5 false).services).map (fun e => e.inst.isSome) = some true
    ∧ (alookup "z" (regC5 false).services).map (fun e => e.inst.isSome) = some true
    ∧ destroyOrder (regC5 false) = ["z", "a"]
    ∧ (destroyReg (regC5 false)).2 = [("z", true), ("a", true)]
    ∧ (destroyReg (regC5 true)).2 = [("z", false), ("a", true)] := by
  decide

/-! ## Claim C10: initialize auto-starts the scheduler -/

/-- C10: for a subconscious agent whose config does not set `autoStart` to
`false`, `initialize` alone leaves the agent `running` with the periodic
timer armed at `config.frequency` — no `start()` call needed; and
`BaseAgent.initialize` by itself moves the status to `running`. -/
theorem subInitialize_arms_timer (cfg : SubConfig) (t : Nat) (w : TimerWorld) (a : SubAgent)
    (h : cfg.autoStart ≠ some false) :
    subInitialize cfg t freshAgent w =
      .ok (⟨true, .running, true, some w.nextId⟩,
           ⟨w.nextId + 1, w.active ++ [⟨w.nextId, cfg.frequency, t⟩], w.cleared⟩)
    ∧ (baseInitialize a).status = .running := by
  constructor
  · simp [subInitialize, h, baseInitialize, subStart, ensureInitialized,
      startProcessingTimer, setIntervalW, freshAgent]
  · rfl

/-- C10 witness: a config with `autoStart` unset, at `t = 0` in a fresh
world. -/
theorem subInitialize_arms_timer_witness :
    subInitialize c10Config 0 freshAgent freshWorld =
      .ok (⟨true, .running, true, some freshWorld.nextId⟩,
           ⟨freshWorld.nextId + 1,
            freshWorld.active ++ [⟨freshWorld.nextId, c10Config.frequency, 0⟩],
            freshWorld.cleared⟩)
    ∧ (baseInitialize freshAgent).status = .running :=
  subInitialize_arms_timer c10Config 0 freshWorld freshAgent (by decide)

/-! ## Claim C9: scheduler arm/disarm -/

/-- C9: `start()` arms a repeating timer at the configured frequency and
`stop()` disarms it deterministically.  In the spec's scenario (frequency
1000ms, started at `t = 0`, stopped at `t = 2500`) exactly the ticks at
1000 and 2000 fire — two ticks, and every tick of any cleared interval
falls strictly between its arm and clear times, so no tick fires after
`stop()` returns; moreover `stop()` always leaves `processingTimer`
cleared and its interval deactivated. -/
theorem scheduler_start_stop_ticks :
    c9Run = .ok (⟨true, .stopped, false, none⟩, ⟨1, [], [(⟨0, 1000, 0⟩, 2500)]⟩)
    ∧ intervalTicks (⟨0, 1000, 0⟩, 2500) = [1000, 2000]
    ∧ (∀ period armT clearT t, t ∈ tickTimes period armT clearT → armT < t ∧ t < clearT)
    ∧ (∀ t a w r, subStop t a w = .ok r →
        r.1.processingTimer = none ∧ ∀ i ∈ r.2.active, a.processingTimer ≠ some i.iid) := by
  refine ⟨by decide, by decide, ?_, ?_⟩
  · intro p a c t ht
    simp only [tickTimes, List.mem_map, List.mem_range] at ht
    obtain ⟨k, hk, rfl⟩ := ht
    unfold numTicks at hk
    by_cases hca : c ≤ a
    · rw [if_pos hca] at hk
      omega
    · rw [if_neg hca] at hk
      have hp : p ≠ 0 := by
        intro h0
        rw [h0, Nat.div_zero] at hk
        omega
      have h1 : (k + 1) * p ≤ ((c - a - 1) / p) * p :=
        Nat.mul_le_mul_right p (Nat.succ_le_of_lt hk)
      have h2 : ((c - a - 1) / p) * p ≤ c - a - 1 := Nat.div_mul_le_self _ _
      have h3 : 1 ≤ (k + 1) * p := Nat.mul_pos (Nat.succ_pos k) (Nat.pos_of_ne_zero hp)
      omega
  · intro t a w r h
    cases hpt : a.processingTimer with
    | none =>
      cases he : ensureInitialized a with
      | error msg =>
        rw [subStop, stopProcessingTimer, hpt] at h
        rw [he] at h
        cases h
      | ok u =>
        rw [subStop, stopProcessingTimer, hpt] at h
        rw [he] at h
        cases h
        refine ⟨hpt, fun i _ => ?_⟩
        intro hc
        simp [hpt] at hc
    | some id =>
      cases he : ensureInitialized { a with processingTimer := none } with
      | error msg =>
        rw [subStop, stopProcessingTimer, hpt] at h
        rw [he] at h
        cases h
      | ok u =>
        rw [subStop, stopProcessingTimer, hpt] at h
        rw [he] at h
        cases h
        refine ⟨rfl, fun i hi => ?_⟩
        simp only [clearIntervalW, List.mem_filter, decide_eq_true_eq] at hi
        intro hc
        exact hi.2 (Option.some.inj hc).symm

/-! ## Claim C1: handler isolation in `publish` -/

/-- The `safeCallHandler` fold: every handler in the list is invoked in
order, `errorCount` grows by exactly the number of throwing handlers, and
nothing else changes. -/
theorem foldl_safeCall (hs : List Handler) (st : BusState) :
    hs.foldl safeCallHandler st =
      { st with callLog := st.callLog ++ hs.map (·.hid),
                errorCount := st.errorCount + (hs.filter (·.throws)).length } := by
  induction hs generalizing st with
  | nil => simp
  | cons h rest ih =>
    rw [List.foldl_cons, ih]
    unfold safeCallHandler
    cases hth : h.throws
    · simp [hth]
    · simp [hth]
      omega

/-- The pattern phase equals one `safeCallHandler` fold over
`patternHandlers`. -/
theorem handlePattern_eq (e : AgentEvent) (subs : List (String × List Handler)) (st : BusState) :
    subs.foldl
      (fun acc sub => if matchesPattern e.type sub.1 then sub.2.foldl safeCallHandler acc else acc)
      st
      = (patternHandlers e subs).foldl safeCallHandler st := by
  induction subs generalizing st with
  | nil => rfl
  | cons s rest ih =>
    by_cases hm : matchesPattern e.type s.1 = true
    · simp [patternHandlers, hm, ih, List.foldl_append]
    · simp only [Bool.not_eq_true] at hm
      simp [patternHandlers, hm, ih]

/-- `addToHistory` changes only the history field. -/
theorem addToHistory_shape (e : AgentEvent) (st : BusState) :
    ∃ hist, addToHistory e st = { st with history := hist } := by
  unfold addToHistory
  by_cases hl : (st.history ++ [e]).length > effHistoryLimit st.config
  · rw [if_pos hl]
    exact ⟨_, rfl⟩
  · rw [if_neg hl]
    exact ⟨_, rfl⟩

/-- C1: on a valid event, `publish` resolves (never rejects because of a
handler); every exact-type subscriber is invoked in subscription order and
every matching pattern subscriber after them, a throwing handler does not
stop or drop any other handler, and `errorCount` grows by exactly one per
throwing handler. -/
theorem publish_isolates_handlers (e : AgentEvent) (st : BusState)
    (hv : validateEvent e = .ok ()) :
    (publish e st).2 = .ok ()
    ∧ (publish e st).1.callLog =
        st.callLog ++ (listenersFor st e.type).map (·.hid)
          ++ (if st.config.enablePatternMatching then
                (patternHandlers e st.patternSubs).map (·.hid) else [])
    ∧ (publish e st).1.errorCount =
        st.errorCount + ((listenersFor st e.type).filter (·.throws)).length
          + (if st.config.enablePatternMatching then
                ((patternHandlers e st.patternSubs).filter (·.throws)).length else 0) := by
  have hshape : ∃ hist, (if st.config.enableEventHistory then addToHistory e st else st)
      = { st with history := hist } := by
    by_cases hE : st.config.enableEventHistory = true
    · rw [if_pos hE]
      exact addToHistory_shape e st
    · simp only [Bool.not_eq_true] at hE
      rw [hE]
      exact ⟨st.history, by simp⟩
  obtain ⟨hist1, h1⟩ := hshape
  have hpub : publish e st =
      (let st1 := { st with history := hist1 }
       let st2 := handleDirectSubscriptions e st1
       let st3 := if st2.config.enablePatternMatching then handlePatternSubscriptions e st2 else st2
       ({ st3 with totalEvents := st3.totalEvents + 1 }, .ok ())) := by
    rw [publish, hv, h1]
  rw [hpub]
  have hdir : handleDirectSubscriptions e { st with history := hist1 } =
      { st with history := hist1,
                callLog := st.callLog ++ (listenersFor st e.type).map (·.hid),
                errorCount := st.errorCount
                  + ((listenersFor st e.type).filter (·.throws)).length } := by
    rw [handleDirectSubscriptions]
    have hl : listenersFor { st with history := hist1 } e.type = listenersFor st e.type := rfl
    rw [hl, foldl_safeCall]
  by_cases hP : st.config.enablePatternMatching = true
  · simp only [hdir, handlePatternSubscriptions, hP, reduceIte]
    rw [handlePattern_eq, foldl_safeCall]
    refine ⟨?_, ?_, ?_⟩
    · trivial
    · simp [List.append_assoc]
    · simp
  · simp only [Bool.not_eq_true] at hP
    simp [hdir, hP]

/-! ## Claim C3: batch initialization -/

theorem spliceFirst_append_self {a : String} (l : List String) (h : a ∉ l) :
    spliceFirst a (l ++ [a]) = l := by
  induction l with
  | nil => simp [spliceFirst]
  | cons x xs ih =>
    have hxa : x ≠ a := fun hxa => h (hxa ▸ List.mem_cons_self x xs)
    simp only [List.cons_append, spliceFirst, if_neg hxa]
    show x :: spliceFirst a (xs ++ [a]) = x :: xs
    rw [ih (fun hx => h (List.mem_cons_of_mem x hx))]

theorem mem_depsOf (reg : RegState) (names : List String) (name : String) :
    ∀ d ∈ depsOf reg names name, d ∈ names := by
  intro d hd
  unfold depsOf at hd
  cases halk : alookup name reg.services with
  | none =>
    simp only [halk] at hd
    cases hd
  | some entry =>
    simp only [halk, List.mem_filter, decide_eq_true_eq] at hd
    exact hd.2

theorem visitT_ok (reg : RegState) (names : List String) :
    ∀ (f : Nat) (name : String) (ts ts' : TSState),
      visitT f reg names name ts = .ok ts' → name ∈ names →
      ts'.visiting = ts.visiting
      ∧ (∃ new, ts'.visited = ts.visited ++ new ∧ ∀ x ∈ new, x ∈ names ∧ x ∉ ts.visiting)
      ∧ name ∈ ts'.visited
      ∧ (ts.visited.Nodup → ts'.visited.Nodup)
      ∧ (ts.result = ts.visited → ts'.result = ts'.visited) := by
  intro f
  induction f with
  | zero =>
    intro name ts ts' h _
    cases h
  | succ n ih =>
    have ihList : ∀ (ds : List String) (ts ts' : TSState),
        visitListWith (visitT n reg names) ds ts = .ok ts' → (∀ d ∈ ds, d ∈ names) →
        ts'.visiting = ts.visiting
        ∧ (∃ new, ts'.visited = ts.visited ++ new ∧ ∀ x ∈ new, x ∈ names ∧ x ∉ ts.visiting)
        ∧ (ts.visited.Nodup → ts'.visited.Nodup)
        ∧ (ts.result = ts.visited → ts'.result = ts'.visited) := by
      intro ds
      induction ds with
      | nil =>
        intro ts ts' h _
        simp only [visitListWith] at h
        cases h
        exact ⟨rfl, ⟨[], by simp, by simp⟩, id, id⟩
      | cons d ds ihds =>
        intro ts ts' h hsub
        cases hv : visitT n reg names d ts with
        | error e =>
          simp only [visitListWith, hv] at h
          cases h
        | ok ts1 =>
          simp only [visitListWith, hv] at h
          have h1 := ih d ts ts1 hv (hsub d (List.mem_cons_self d ds))
          have h2 := ihds ts1 ts' h (fun x hx => hsub x (List.mem_cons_of_mem d hx))
          obtain ⟨hA1, ⟨new1, hB1, hB1c⟩, _hC1, hD1, hE1⟩ := h1
          obtain ⟨hA2, ⟨new2, hB2, hB2c⟩, hD2, hE2⟩ := h2
          refine ⟨hA2.trans hA1, ⟨new1 ++ new2, ?_, ?_⟩,
            fun hnd => hD2 (hD1 hnd), fun hcp => hE2 (hE1 hcp)⟩
          · rw [hB2, hB1, List.append_assoc]
          · intro x hx
            rcases List.mem_append.mp hx with hx1 | hx2
            · exact hB1c x hx1
            · have hxx := hB2c x hx2
              rw [hA1] at hxx
              exact hxx
    intro name ts ts' h hname
    by_cases hvtg : name ∈ ts.visiting
    · simp only [visitT, if_pos hvtg] at h
      cases h
    · by_cases hvd : name ∈ ts.visited
      · simp only [visitT, if_neg hvtg, if_pos hvd] at h
        cases h
        exact ⟨rfl, ⟨[], by simp, by simp⟩, hvd, id, id⟩
      · simp only [visitT, if_neg hvtg, if_neg hvd] at h
        cases hvl : visitListWith (visitT n reg names) (depsOf reg names name)
            { ts with visiting := ts.visiting ++ [name] } with
        | error e =>
          rw [hvl] at h
          cases h
        | ok ts2 =>
          rw [hvl] at h
          cases h
          have h2 := ihList (depsOf reg names name)
            { ts with visiting := ts.visiting ++ [name] } ts2 hvl (mem_depsOf reg names name)
          obtain ⟨hA2, ⟨new2, hB2, hB2c⟩, hD2, hE2⟩ := h2
          have hts1v : ({ ts with visiting := ts.visiting ++ [name] } : TSState).visiting
              = ts.visiting ++ [name] := rfl
          have hnmem2 : name ∉ new2 := by
            intro hin
            have hxx := (hB2c name hin).2
            rw [hts1v] at hxx
            exact hxx (by simp)
          refine ⟨?_, ⟨new2 ++ [name], ?_, ?_⟩, ?_, ?_, ?_⟩
          · show spliceFirst name ts2.visiting = ts.visiting
            rw [hA2, hts1v]
            exact spliceFirst_append_self ts.visiting hvtg
          · show ts2.visited ++ [name] = ts.visited ++ (new2 ++ [name])
            rw [hB2]
            show (ts.visited ++ new2) ++ [name] = _
            rw [List.append_assoc]
          · intro x hx
            rcases List.mem_append.mp hx with hx2 | hxn
            · have hxx := hB2c x hx2
              rw [hts1v] at hxx
              refine ⟨hxx.1, fun hmem => hxx.2 ?_⟩
              simp [hmem]
            · have hxx : x = name := by simpa using hxn
              subst hxx
              exact ⟨hname, hvtg⟩
          · show name ∈ ts2.visited ++ [name]
            simp
          · intro hnd
            show (ts2.visited ++ [name]).Nodup
            have hnd2 : ts2.visited.Nodup := hD2 hnd
            have hnin : name ∉ ts2.visited := by
              rw [hB2]
              intro hin
              rcases List.mem_append.mp hin with hin1 | hin2
              · exact hvd hin1
              · exact hnmem2 hin2
            refine List.Nodup.append hnd2 (List.nodup_singleton name) ?_
            intro x hx1 hx2
            have hxx : x = name := by simpa using hx2
            exact hnin (hxx ▸ hx1)
          · intro hcp
            show ts2.result ++ [name] = ts2.visited ++ [name]
            rw [hE2 hcp]

theorem topoOuter_ok (reg : RegState) (names : List String) (f : Nat) :
    ∀ (xs : List String) (ts ts' : TSState),
      topoOuter f reg names xs ts = .ok ts' → (∀ x ∈ xs, x ∈ names) →
      ts'.visiting = ts.visiting
      ∧ (∃ new, ts'.visited = ts.visited ++ new ∧ ∀ x ∈ new, x ∈ names ∧ x ∉ ts.visiting)
      ∧ (∀ x ∈ xs, x ∈ ts'.visited)
      ∧ (ts.visited.Nodup → ts'.visited.Nodup)
      ∧ (ts.result = ts.visited → ts'.result = ts'.visited) := by
  intro xs
  induction xs with
  | nil =>
    intro ts ts' h _
    simp only [topoOuter] at h
    cases h
    exact ⟨rfl, ⟨[], by simp, by simp⟩, by simp, id, id⟩
  | cons x xs ihxs =>
    intro ts ts' h hsub
    by_cases hx : x ∈ ts.visited
    · simp only [topoOuter, if_pos hx] at h
      have h2 := ihxs ts ts' h (fun y hy => hsub y (List.mem_cons_of_mem x hy))
      obtain ⟨hA2, ⟨new2, hB2, hB2c⟩, hM2, hD2, hE2⟩ := h2
      refine ⟨hA2, ⟨new2, hB2, hB2c⟩, ?_, hD2, hE2⟩
      intro y hy
      rcases List.mem_cons.mp hy with rfl | hy2
      · rw [hB2]
        exact List.mem_append.mpr (Or.inl hx)
      · exact hM2 y hy2
    · simp only [topoOuter, if_neg hx] at h
      cases hv : visitT f reg names x ts with
      | error e =>
        rw [hv] at h
        cases h
      | ok ts1 =>
        rw [hv] at h
        have h1 := visitT_ok reg names f x ts ts1 hv (hsub x (List.mem_cons_self x xs))
        have h2 := ihxs ts1 ts' h (fun y hy => hsub y (List.mem_cons_of_mem x hy))
        obtain ⟨hA1, ⟨new1, hB1, hB1c⟩, hC1, hD1, hE1⟩ := h1
        obtain ⟨hA2, ⟨new2, hB2, hB2c⟩, hM2, hD2, hE2⟩ := h2
        refine ⟨hA2.trans hA1, ⟨new1 ++ new2, ?_, ?_⟩, ?_,
          fun hnd => hD2 (hD1 hnd), fun hcp => hE2 (hE1 hcp)⟩
        · rw [hB2, hB1, List.append_assoc]
        · intro y hy
          rcases List.mem_append.mp hy with hy1 | hy2
          · exact hB1c y hy1
          · have hyy := hB2c y hy2
            rw [hA1] at hyy
            exact hyy
        · intro y hy
          rcases List.mem_cons.mp hy with rfl | hy2
          · rw [hB2]
            exact List.mem_append.mpr (Or.inl hC1)
          · exact hM2 y hy2

theorem topologicalSort_ok_perm (st : RegState) (names sorted : List String)
    (hnd : names.Nodup) (h : topologicalSort st names = .ok sorted) :
    sorted.Perm names := by
  unfold topologicalSort at h
  cases ho : topoOuter (names.length + 2) st names names ⟨[], [], []⟩ with
  | error e =>
    rw [ho] at h
    cases h
  | ok ts' =>
    rw [ho] at h
    simp only [Except.map] at h
    cases h
    have hfacts := topoOuter_ok st names (names.length + 2) names ⟨[], [], []⟩ ts' ho
      (fun x hx => hx)
    obtain ⟨_, ⟨new, hB, hBc⟩, hM, hD, hE⟩ := hfacts
    have hvis : ts'.visited = new := by
      rw [hB]
      rfl
    have hres : ts'.result = ts'.visited := hE rfl
    have hnodup : ts'.visited.Nodup := hD List.nodup_nil
    rw [hres, hvis]
    rw [hvis] at hnodup hM
    refine (List.perm_ext_iff_of_nodup hnodup hnd).mpr ?_
    intro a
    constructor
    · intro ha
      exact (hBc a ha).1
    · intro ha
      exact hM a ha

theorem strInsert_perm (x : String) (l : List String) :
    (strInsert x l).Perm (x :: l) := by
  induction l with
  | nil => exact List.Perm.refl _
  | cons y ys ih =>
    by_cases hle : strLe x y = true
    · rw [strInsert, if_pos hle]
    · rw [strInsert, if_neg hle]
      exact ((ih.cons y).trans (List.Perm.swap x y ys))

theorem strSort_perm (l : List String) : (strSort l).Perm l := by
  induction l with
  | nil => exact List.Perm.refl _
  | cons x xs ih =>
    exact (strInsert_perm x (strSort xs)).trans (ih.cons x)

theorem initLoop_names (sorted : List String) :
    ∀ st : RegState, ((initLoop sorted st).2).map (·.name) = sorted := by
  induction sorted with
  | nil => intro st; rfl
  | cons name rest ih =>
    intro st
    cases hg : getService name st with
    | mk st1 r =>
      cases r with
      | ok v => simp [initLoop, hg, ih]
      | error e => simp [initLoop, hg, ih]


/-- C3 counterexample: in a registry where `a` and `b` form a dependency
cycle and `c` is independent and instantiable on its own, `initializeAll`
rejects the entire batch with the topological-sort error: no per-service
result list is produced, no factory runs, and `c` is not instantiated
(though a direct `get 'c'` succeeds). -/
theorem initializeAll_cycle_aborts_batch :
    (initializeAll regC3).2 = .error "Circular dependency detected involving: a"
    ∧ (initializeAll regC3).1 = regC3
    ∧ (initializeAll regC3).1.factoryLog = []
    ∧ "c" ∈ listNames regC3
    ∧ (alookup "c" regC3.services).map (·.dependencies) = some []
    ∧ (getService "c" regC3).2 = .ok (.vobj 3 false false) := by
  decide

/-- C3 (amended): `initializeAll` captures per-service success/failure for
factory errors without aborting the batch — when it returns a result list,
that list has exactly one row per registered service; but a dependency
cycle detected during the topological sort (which runs outside the
per-service try/catch) aborts the entire batch: the call rejects and the
registry is left untouched, with no service instantiated, not even ones
outside the cycle. -/
theorem initializeAll_batch (st : RegState) (hnd : (st.services.map (·.1)).Nodup) :
    (∀ e, (initializeAll st).2 = .error e → (initializeAll st).1 = st)
    ∧ (∀ results, (initializeAll st).2 = .ok results →
        (results.map (·.name)).Perm (listNames st)) := by
  have hnody : (listNames st).Nodup := by
    unfold listNames
    exact ((strSort_perm _).nodup_iff).mpr hnd
  unfold initializeAll
  cases hts : topologicalSort st (listNames st) with
  | error e =>
    simp only [hts]
    refine ⟨fun e2 he => ?_, fun results hres => ?_⟩
    · trivial
    · cases hres
  | ok sorted =>
    simp only [hts]
    cases hinit : initLoop sorted st with
    | mk st1 results0 =>
      constructor
      · intro e2 he
        cases he
      · intro results hres
        cases hres
        have hmap : results0.map (·.name) = sorted := by
          have hnames := initLoop_names sorted st
          rw [hinit] at hnames
          exact hnames
        rw [hmap]
        exact topologicalSort_ok_perm st (listNames st) sorted hnody hts

/-- C3 witness: a registry with a throwing factory (`d`) and a healthy one
(`e`): `initializeAll` returns one row per service, marking `d` failed and
`e` succeeded, and the row names are a permutation of the registered
names. -/
theorem initializeAll_batch_witness :
    ((regC3b.services.map (·.1)).Nodup)
    ∧ ((initializeAll regC3b).2
        = .ok [{ name := "d", success := false, errMsg := some "boom" },
               { name := "e", success := true, errMsg := none }])
    ∧ ((([{ name := "d", success := false, errMsg := some "boom" },
          { name := "e", success := true, errMsg := none }] : List InitResult).map (·.name)).Perm
        (listNames regC3b)) := by
  refine ⟨by decide, by decide, ?_⟩
  exact (initializeAll_batch regC3b (by decide)).2 _ (by decide)

/-! ## Claim C7: memoization of `get` -/

theorem count_append_ne {s name : String} (hne : name ≠ s) (l : List String) :
    (l ++ [name]).count s = l.count s := by
  have hb : (name == s) = false := by
    simp [hne]
  simp [List.count_append, List.count_cons, hb]

theorem memo_lookup {st : RegState} {s : String} {v : JSVal}
    (hm : memoizedTruthy st s v) {st2 : RegState}
    (heq : alookup s st2.services = alookup s st.services) :
    memoizedTruthy st2 s v := by
  obtain ⟨e, he1, he2, he3⟩ := hm
  exact ⟨e, heq.trans he1, he2, he3⟩

theorem memo_invariant (s : String) (v : JSVal) :
    ∀ n, ∀ (name : String) (st : RegState), memoizedTruthy st s v →
      alookup s (getFuel n name st).1.services = alookup s st.services
      ∧ ((getFuel n name st).1.factoryLog.count s = st.factoryLog.count s) := by
  intro n
  induction n with
  | zero => intro name st _; exact ⟨rfl, rfl⟩
  | succ n ih =>
    have hR : ∀ (body : FactoryBody) (st : RegState), memoizedTruthy st s v →
        alookup s (runBodyWith (getFuel n) body st).1.services = alookup s st.services
        ∧ ((runBodyWith (getFuel n) body st).1.factoryLog.count s
            = st.factoryLog.count s) := by
      intro body
      induction body with
      | ret v2 => intro st _; exact ⟨rfl, rfl⟩
      | fail m => intro st _; exact ⟨rfl, rfl⟩
      | getThen d rest ihb =>
        intro st hm
        cases hg : getFuel n d st with
        | mk st1 r =>
          have hP := ih d st hm
          rw [hg] at hP
          have hm1 : memoizedTruthy st1 s v := memo_lookup hm hP.1
          cases r with
          | error err =>
            simp only [runBodyWith, hg]
            exact hP
          | ok val =>
            simp only [runBodyWith, hg]
            have h2 := ihb st1 hm1
            exact ⟨h2.1.trans hP.1, h2.2.trans hP.2⟩
    have hQ : ∀ (name : String) (entry : ServiceEntry) (st : RegState), name ≠ s →
        memoizedTruthy st s v →
        alookup s (createInstanceWith (getFuel n) name entry st).1.services
            = alookup s st.services
        ∧ ((createInstanceWith (getFuel n) name entry st).1.factoryLog.count s
            = st.factoryLog.count s) := by
      intro name entry st hne hm
      unfold createInstanceWith
      by_cases hc : st.config.enableCircularDependencyDetection = true
          ∧ name ∈ st.initializationStack
      · rw [if_pos hc]
        exact ⟨rfl, rfl⟩
      · rw [if_neg hc]
        have hslook : ∀ (f : ServiceEntry → ServiceEntry) (st' : RegState),
            alookup s (updateEntry name f st').services = alookup s st'.services := by
          intro f st'
          exact alookup_amodify_ne name s f st'.services (Ne.symm hne)
        set st2 : RegState :=
          { updateEntry name (fun e => { e with lifecycle := .initializing }) st with
            initializationStack :=
              (updateEntry name (fun e => { e with lifecycle := .initializing }) st).initializationStack ++ [name],
            factoryLog :=
              (updateEntry name (fun e => { e with lifecycle := .initializing }) st).factoryLog ++ [name] } with hst2
        have hm2 : memoizedTruthy st2 s v := by
          apply memo_lookup hm
          rw [hst2]
          exact hslook _ _
        have hl2 : alookup s st2.services = alookup s st.services := by
          rw [hst2]; exact hslook _ _
        have hc2 : st2.factoryLog.count s = st.factoryLog.count s := by
          rw [hst2]
          show ((updateEntry name _ st).factoryLog ++ [name]).count s = _
          rw [count_append_ne hne]
          rfl
        cases hrb : runBodyWith (getFuel n) entry.factory.body st2 with
        | mk st3 r =>
          have h3 := hR entry.factory.body st2 hm2
          rw [hrb] at h3
          cases r with
          | ok val =>
            simp only [hrb]
            constructor
            · exact (hslook _ _).trans (h3.1.trans hl2)
            · exact h3.2.trans hc2
          | error err =>
            simp only [hrb]
            constructor
            · exact (hslook _ _).trans (h3.1.trans hl2)
            · exact h3.2.trans hc2
    intro name st hm
    by_cases hns : name = s
    · subst hns
      obtain ⟨e, he1, he2, he3⟩ := hm
      have hstep : getFuel (n + 1) name st = (st, .ok v) := by
        simp [getFuel, he1, optTruthy, he2, he3]
      rw [hstep]
      exact ⟨rfl, rfl⟩
    · cases hl : alookup name st.services with
      | none =>
        have hstep : getFuel (n + 1) name st = (st, .error (.notRegistered name)) := by
          simp [getFuel, hl]
        rw [hstep]
        exact ⟨rfl, rfl⟩
      | some entry =>
        by_cases ht : optTruthy entry.inst = true
        · have hstep : getFuel (n + 1) name st = (st, .ok (entry.inst.getD .vundefined)) := by
            simp [getFuel, hl, ht]
          rw [hstep]
          exact ⟨rfl, rfl⟩
        · by_cases hlz : st.config.enableLazyLoading = true ∨ entry.lifecycle = .registered
          · have hstep : getFuel (n + 1) name st
                = createInstanceWith (getFuel n) name entry st := by
              simp only [getFuel, hl]
              rw [if_neg (by simpa using ht), if_pos hlz]
            rw [hstep]
            exact hQ name entry st hns hm
          · have hstep : getFuel (n + 1) name st
                = (st, .error (.notInitializedLazyDisabled name)) := by
              simp only [getFuel, hl]
              rw [if_neg (by simpa using ht), if_neg hlz]
            rw [hstep]
            exact ⟨rfl, rfl⟩

/-- C7 counterexample: a factory returning `null` (falsy) defeats the
memoization check `if (entry.instance)`: the entry is marked `initialized`
with its instance stored, yet a second `get` invokes the factory again —
the factory is not invoked at most once. -/
theorem get_refetches_falsy_instance :
    (getService "s" regNull).2 = .ok .vnull
    ∧ (alookup "s" ((getService "s" regNull).1).services).map (·.lifecycle)
        = some .initialized
    ∧ (alookup "s" ((getService "s" regNull).1).services).map (·.inst) = some (some .vnull)
    ∧ (getService "s" (getService "s" regNull).1).2 = .ok .vnull
    ∧ (getService "s" (getService "s" regNull).1).1.factoryLog = ["s", "s"] := by
  decide

/-- C7 (amended): for a registered name whose entry holds a truthy
instance `v`, any sequence of `get` calls leaves the entry untouched and
never re-invokes its factory, and `get` of that name returns exactly `v`
without changing the registry; the at-most-once/identical-instance
guarantee is conditional on truthiness — a factory that returned a falsy
value (such as `null`) is re-invoked on every later `get`. -/
theorem get_returns_memoized_instance (s : String) (v : JSVal) (st : RegState)
    (hm : memoizedTruthy st s v) (calls : List String) :
    memoizedTruthy (runGets calls st) s v
    ∧ (runGets calls st).factoryLog.count s = st.factoryLog.count s
    ∧ getService s (runGets calls st) = (runGets calls st, .ok v) := by
  have hearly : ∀ st' : RegState, memoizedTruthy st' s v →
      getService s st' = (st', .ok v) := by
    intro st' hm'
    obtain ⟨e, he1, he2, he3⟩ := hm'
    show getFuel (st'.services.length + 2) s st' = (st', .ok v)
    have hstep : ∀ k, getFuel (k + 1) s st' = (st', .ok v) := by
      intro k
      simp [getFuel, he1, optTruthy, he2, he3]
    exact hstep (st'.services.length + 1)
  induction calls generalizing st with
  | nil => exact ⟨hm, rfl, hearly st hm⟩
  | cons c rest ih =>
    have h1 := memo_invariant s v (st.services.length + 2) c st hm
    have hm1 : memoizedTruthy (getService c st).1 s v := memo_lookup hm h1.1
    have hrec := ih (getService c st).1 hm1
    have hrg : runGets (c :: rest) st = runGets rest (getService c st).1 := rfl
    rw [hrg]
    exact ⟨hrec.1, hrec.2.1.trans h1.2, hrec.2.2⟩

/-- C7 witness: a pre-registered instance (truthy object), fetched twice
around a `get` of an unrelated name — the entry stays memoized, no factory
run for it is ever logged, and `get` returns the identical instance. -/
theorem get_returns_memoized_instance_witness :
    memoizedTruthy (registerInstance "cfg" (.vobj 7 false false) emptyReg) "cfg"
      (.vobj 7 false false)
    ∧ (memoizedTruthy
        (runGets ["cfg", "other", "cfg"]
          (registerInstance "cfg" (.vobj 7 false false) emptyReg)) "cfg"
        (.vobj 7 false false)
      ∧ (runGets ["cfg", "other", "cfg"]
            (registerInstance "cfg" (.vobj 7 false false) emptyReg)).factoryLog.count "cfg"
          = (registerInstance "cfg" (.vobj 7 false false) emptyReg).factoryLog.count "cfg"
      ∧ getService "cfg"
            (runGets ["cfg", "other", "cfg"]
              (registerInstance "cfg" (.vobj 7 false false) emptyReg))
          = (runGets ["cfg", "other", "cfg"]
              (registerInstance "cfg" (.vobj 7 false false) emptyReg),
             .ok (.vobj 7 false false))) := by
  have hmem : memoizedTruthy (registerInstance "cfg" (.vobj 7 false false) emptyReg) "cfg"
      (.vobj 7 false false) := ⟨_, rfl, rfl, rfl⟩
  exact ⟨hmem, get_returns_memoized_instance "cfg" (.vobj 7 false false) _ hmem
    ["cfg", "other", "cfg"]⟩

/-! ## Claim C4: circular `get` detection -/

/-- String append is associative (used to exhibit substrings of error
messages). -/
theorem string_append_assoc (s t u : String) : (s ++ t) ++ u = s ++ (t ++ u) := by
  apply String.ext
  simp [String.data_append, List.append_assoc]

/-- C4: with services `a` and `b` registered so that each factory fetches
the other from the registry, `get a` raises the circular-dependency error
synchronously; its recorded cycle path is `a -> b -> a`, and its message
contains both service names as substrings. -/
theorem get_detects_cycle (a b : String) (h : a ≠ b) :
    (getService a (cycleReg a b)).2 = .error (.circularDependency [a, b, a])
    ∧ (∃ u v, (RegError.circularDependency [a, b, a]).message = u ++ a ++ v)
    ∧ (∃ u v, (RegError.circularDependency [a, b, a]).message = u ++ b ++ v)
    ∧ a ∈ [a, b, a] ∧ b ∈ [a, b, a] := by
  refine ⟨?_,
    ⟨"Circular dependency detected: ", " -> " ++ (b ++ (" -> " ++ a)), ?_⟩,
    ⟨"Circular dependency detected: " ++ (a ++ " -> "), " -> " ++ a, ?_⟩,
    by simp, by simp⟩
  · have hlen : (cycleReg a b).services.length = 2 := by
      simp [cycleReg, register, emptyReg, aset, h]
    rw [getService, hlen]
    simp only [getFuel, cycleReg, register, emptyReg, aset, alookup, amodify, updateEntry,
      spliceFirst, optTruthy, createInstanceWith, runBodyWith, h, Ne.symm h,
      if_true, if_false, ite_true, ite_false, if_neg, if_pos]
    simp [h, Ne.symm h]
  · simp [RegError.message, joinArrow, string_append_assoc]
  · simp [RegError.message, joinArrow, string_append_assoc]

/-- C4 witness: the concrete services `"A"` and `"B"`. -/
theorem get_detects_cycle_witness :
    "A" ≠ "B"
    ∧ ((getService "A" (cycleReg "A" "B")).2
          = .error (.circularDependency ["A", "B", "A"])
      ∧ (∃ u v, (RegError.circularDependency ["A", "B", "A"]).message = u ++ "A" ++ v)
      ∧ (∃ u v, (RegError.circularDependency ["A", "B", "A"]).message = u ++ "B" ++ v)
      ∧ "A" ∈ ["A", "B", "A"] ∧ "B" ∈ ["A", "B", "A"]) :=
  ⟨by decide, get_detects_cycle "A" "B" (by decide)⟩

/-- C1 witness: three exact-type subscribers for the published type where
the second throws — all three are invoked in order, `errorCount` grows by
exactly one, and `publish` resolves. -/
theorem publish_isolates_handlers_witness :
    validateEvent ev3 = .ok ()
    ∧ ((publish ev3 bus3).2 = .ok ()
      ∧ (publish ev3 bus3).1.callLog = [1, 2, 3]
      ∧ (publish ev3 bus3).1.errorCount = 1) :=
  ⟨by decide, publish_isolates_handlers ev3 bus3 (by decide)⟩

end CoordKernel
